import Mathlib

/-!
Verification of the duplicate-image moderation bot (duplicate ledger,
penalty controller, run-state gate, fingerprint service).

The definitions below are shallow embeddings of the JavaScript source:
the mongoose `Image` collection becomes a list of records, the store
operations (`findOne`, `create`/`save` under a unique index,
`findOneAndUpdate` with `upsert`) become pure functions on that list,
and the Discord side effects become explicit action traces.
-/

namespace ZyfeBot

/-- A stored fingerprint record, as in the `imageSchema` of the source
(fields `hash`, `guildId`, `channelId`, `messageId`, `url`) together with
the mongoose `timestamps: true` fields `createdAt` and `updatedAt`,
modelled as natural numbers (milliseconds). -/
structure ImageRecord where
  hash : String
  guildId : String
  channelId : String
  messageId : String
  url : String
  createdAt : Nat
  updatedAt : Nat
deriving DecidableEq, Repr

/-- The `Image` collection. -/
abbrev Ledger := List ImageRecord

/-- Provenance supplied at claim time (channel, message, url of the
submission). -/
structure Provenance where
  channelId : String
  messageId : String
  url : String
deriving DecidableEq, Repr

/-- `Image.findOne({ hash, guildId })`: first record matching the compound
key. -/
def findOneHashGuild (db : Ledger) (h g : String) : Option ImageRecord :=
  db.find? (fun r => r.hash == h && r.guildId == g)

/-- `Image.findOne({ hash })`: the globally keyed lookup used by the second
index.js variant. -/
def findOneHash (db : Ledger) (h : String) : Option ImageRecord :=
  db.find? (fun r => r.hash == h)

/-- Outcome of a ledger claim, classified the way the source classifies it. -/
inductive ClaimOutcome where
  | wasInserted (r : ImageRecord)
  | alreadyExists (r : ImageRecord)
deriving DecidableEq, Repr

/-- Boolean test for the `Inserted` outcome. -/
def ClaimOutcome.isInserted : ClaimOutcome → Bool
  | .wasInserted _ => true
  | .alreadyExists _ => false

/-- The atomic upsert claim of test.js and part_000:
`Image.findOneAndUpdate({ hash, guildId }, { $setOnInsert: provenance },
{ upsert: true, new: true, setDefaultsOnInsert: true })` followed by the
classification `wasInserted = createdAt.getTime() === updatedAt.getTime()`.
On a match, mongoose timestamps set `updatedAt := now` and `$setOnInsert`
leaves the provenance untouched; on an insert the new document has
`createdAt = updatedAt = now`. -/
def claimUpsert (db : Ledger) (h g : String) (p : Provenance) (now : Nat) :
    ClaimOutcome × Ledger :=
  match findOneHashGuild db h g with
  | some r =>
      let r' : ImageRecord := { r with updatedAt := now }
      let db' : Ledger :=
        db.map (fun x =>
          if x.hash == h && x.guildId == g then { x with updatedAt := now } else x)
      if r'.createdAt == r'.updatedAt then (.wasInserted r', db')
      else (.alreadyExists r', db')
  | none =>
      let r : ImageRecord :=
        ⟨h, g, p.channelId, p.messageId, p.url, now, now⟩
      (.wasInserted r, db ++ [r])

/-- A sequence of claims against the same `(hash, guildId)` key, each with
its own store timestamp and provenance, applied left to right (the store
serializes concurrent claims in some order). -/
def runClaims (db : Ledger) (h g : String) :
    List (Nat × Provenance) → List ClaimOutcome × Ledger
  | [] => ([], db)
  | (t, p) :: rest =>
      let step := claimUpsert db h g p t
      let next := runClaims step.2 h g rest
      (step.1 :: next.1, next.2)

/-- The outcome references the record first inserted as `r0`: it reports a
duplicate of a record that agrees with `r0` on every field except possibly
the `updatedAt` timestamp. -/
def referencesFirst (o : ClaimOutcome) (r0 : ImageRecord) : Prop :=
  ∃ t : Nat, o = .alreadyExists { r0 with updatedAt := t }

/-- `Image.create` / `new Image(...).save()` under the compound unique index
`imageSchema.index({ hash: 1, guildId: 1 }, { unique: true })`: fails with
the duplicate-key code 11000 when the key is already present. -/
def insertCompoundUnique (db : Ledger) (r : ImageRecord) : Except Nat Ledger :=
  if (findOneHashGuild db r.hash r.guildId).isSome then .error 11000
  else .ok (db ++ [r])

/-- `new Image(...).save()` under the schema of the second index.js variant
and part_002, where `hash` is declared `unique: true` with no guild in the
key: fails with 11000 when any guild already holds this hash. -/
def saveGlobalUnique (db : Ledger) (r : ImageRecord) : Except Nat Ledger :=
  if (findOneHash db r.hash).isSome then .error 11000
  else .ok (db ++ [r])

/-- Result of the second index.js variant image path. -/
inductive GlobalClaimResult where
  | wasInserted (r : ImageRecord)
  | alreadyExists (r : ImageRecord)
  | saveConflict
deriving DecidableEq, Repr

/-- The image path of the second index.js variant: `Image.findOne({ hash })`
globally, duplicate handling when found, otherwise a plain save under the
global unique index. -/
def claimGlobal (db : Ledger) (h g : String) (p : Provenance) (now : Nat) :
    GlobalClaimResult × Ledger :=
  match findOneHash db h with
  | some r => (.alreadyExists r, db)
  | none =>
      let r : ImageRecord := ⟨h, g, p.channelId, p.messageId, p.url, now, now⟩
      match saveGlobalUnique db r with
      | .ok db' => (.wasInserted r, db')
      | .error _ => (.saveConflict, db)

/-- Observable side effects of the handlers, as an action trace. An action
records that the corresponding platform call was attempted (every such call
in the source is wrapped in its own try/catch that only logs on failure). -/
inductive Action where
  | fingerprint (url : String)
  | removeRole (roleId : String)
  | addRole (roleId : String)
  | scheduleRemoval (roleId : String)
  | deleteMessage
  | dmUser
  | notifyChannel
  | reply (text : String)
  | logLine
deriving DecidableEq, Repr

/-- index.js lines 266..287 (and the E11000 fallback 344..357): remove the
CODE CERTIFIED role only when the member currently holds it, otherwise only
log. Returns the member role set and the emitted actions. -/
def revokeGuarded (role : String) (memberRoles : List String) :
    List String × List Action :=
  if memberRoles.contains role then (memberRoles.erase role, [.removeRole role])
  else (memberRoles, [.logLine])

/-- part_000 second variant lines 784..797: `if (codeCertifiedRole)` then
`roles.remove(codeCertifiedRole)` with no check that the member holds it. -/
def revokeUnguarded (role : String) (memberRoles : List String) :
    List String × List Action :=
  (memberRoles.erase role, [.removeRole role])

/-- Discord `member.roles.add`: the role set is a set, adding a held role
changes nothing. -/
def addIfAbsent (role : String) (roles : List String) : List String :=
  if roles.contains role then roles else roles ++ [role]

/-- Per-effect success flags for one run of the temp-role duplicate path.
Each platform call in the source is individually try/caught, so a failure
only changes what is logged, never which later calls are attempted. -/
structure EffectFlags where
  addRoleOk : Bool
  deleteOk : Bool
  dmOk : Bool
  notifyOk : Bool
deriving DecidableEq, Repr

/-- The body of the temp-role duplicate path of part_000 (lines 292..373)
and the second test.js variant, once the temp role has been resolved:
assign the role (state changes only when the platform call succeeds),
schedule its removal after 24 hours, delete the offending message, DM the
member, notify the command channel. Every step is attempted regardless of
the failure of earlier steps. -/
def dupTempRoleBody (role : String) (memberRoles : List String)
    (eff : EffectFlags) : List String × List Action :=
  let roles' := if eff.addRoleOk then addIfAbsent role memberRoles else memberRoles
  (roles',
   [.addRole role, .scheduleRemoval role, .deleteMessage, .dmUser, .notifyChannel])

/-- Role-cache and role-creation environment for the temp-role path:
`tempRoleId` is the result of `guild.roles.cache.find`, `createdRoleId`
the result of `guild.roles.create` (`none` when creation fails). -/
structure TempRoleEnv where
  tempRoleId : Option String
  createdRoleId : Option String
deriving DecidableEq, Repr

/-- The full temp-role duplicate path of part_000 lines 292..373: find or
create the temp role; on creation failure `continue`, abandoning the
message deletion, the DM and the channel notification for this image. -/
def dupHandlingTempRole (env : TempRoleEnv) (memberRoles : List String)
    (eff : EffectFlags) : List String × List Action :=
  match env.tempRoleId with
  | some role => dupTempRoleBody role memberRoles eff
  | none =>
      match env.createdRoleId with
      | some role => dupTempRoleBody role memberRoles eff
      | none => (memberRoles, [.logLine])

/-- The clean-lookup duplicate path of test.js lines 287..344: guarded
CODE CERTIFIED revoke, delete the message, DM the member, notify the
command channel. -/
def dupHandlingCertified (ccRole : Option String) (memberRoles : List String) :
    List String × List Action :=
  let step :=
    match ccRole with
    | some role =>
        if memberRoles.contains role then
          (memberRoles.erase role, [Action.removeRole role])
        else (memberRoles, ([] : List Action))
    | none => (memberRoles, ([] : List Action))
  (step.1, step.2 ++ [.deleteMessage, .dmUser, .notifyChannel])

/-- The E11000 catch of test.js lines 350..468: re-fetch the record (from
the database as seen at re-check time, which a concurrent delete may have
changed); when found, run the same duplicate handling as the clean lookup
plus one extra DM attempt (the additional `createDM` block, lines 420..460);
when not found, log the anomaly only. -/
def e11000HandlerTestJs (db2 : Ledger) (h g : String) (ccRole : Option String)
    (memberRoles : List String) : List String × List Action :=
  match findOneHashGuild db2 h g with
  | some _ =>
      let step :=
        match ccRole with
        | some role =>
            if memberRoles.contains role then
              (memberRoles.erase role, [Action.removeRole role])
            else (memberRoles, ([] : List Action))
        | none => (memberRoles, ([] : List Action))
      (step.1, step.2 ++ [.deleteMessage, .dmUser, .notifyChannel, .dmUser])
  | none => (memberRoles, [.logLine])

/-- The insert path of part_002 lines 294..313: a plain save under the
globally unique hash index; the catch logs E11000 (or any other error) and
performs no duplicate handling at all. -/
def insertPathPart002 (db : Ledger) (h g : String) (p : Provenance)
    (now : Nat) : Ledger × List Action :=
  let r : ImageRecord := ⟨h, g, p.channelId, p.messageId, p.url, now, now⟩
  match saveGlobalUnique db r with
  | .ok db' => (db', [.logLine])
  | .error _ => (db, [.logLine])

/-- The messageDelete handler of index.js lines 382..395 (same in test.js
and part_000): `findOne({ messageId, guildId })`, and when found,
`deleteOne({ messageId })` (the store removes the first document with this
message id). -/
def messageDeleteHandler (db : Ledger) (messageId guildId : String) : Ledger :=
  match db.find? (fun r => r.messageId == messageId && r.guildId == guildId) with
  | some _ => db.eraseP (fun r => r.messageId == messageId)
  | none => db

/-- The messageDelete handler of the second index.js variant, lines
681..699: it returns early when the bot is stopped (`if (!botRunning)
return`), and otherwise finds and deletes by `messageId` only. -/
def messageDeleteHandlerGated (botRunning : Bool) (db : Ledger)
    (messageId : String) : Ledger :=
  if !botRunning then db
  else
    match db.find? (fun r => r.messageId == messageId) with
    | some _ => db.eraseP (fun r => r.messageId == messageId)
    | none => db

/-- Outcome of the `fetch(url)` call inside computeImageHash:
either a successful response (carrying `response.url`), a response with
`response.ok` false (carrying `statusText`), or a thrown network error. -/
inductive FetchOutcome where
  | success (finalUrl : String)
  | httpFailure (statusText : String)
  | networkFailure (msg : String)
deriving DecidableEq, Repr

/-- Outcome of the `imageHash(url, 16, true, cb)` callback: either hash
data or an error (which the source converts to a null resolution). -/
inductive HashOutcome where
  | data (s : String)
  | failure (msg : String)
deriving DecidableEq, Repr

/-- The body of computeImageHash (index.js lines 100..124) without its
surrounding try/catch: a non-ok response raises
`Failed to fetch image: ...`, a network failure propagates, a hashing
error resolves to null (`none`), and success resolves to the hash data. -/
def computeImageHashBody (fetch : FetchOutcome)
    (hasher : String → HashOutcome) : Except String (Option String) :=
  match fetch with
  | .networkFailure e => .error e
  | .httpFailure s => .error ("Failed to fetch image: " ++ s)
  | .success u =>
      match hasher u with
      | .data d => .ok (some d)
      | .failure _ => .ok none

/-- computeImageHash with its try/catch: any thrown error is logged and
converted to null (`none`), so the caller always receives a value. -/
def computeImageHash (fetch : FetchOutcome)
    (hasher : String → HashOutcome) : Option String :=
  match computeImageHashBody fetch hasher with
  | .ok v => v
  | .error _ => none

/-- An inbound attachment: declared content type and url. -/
structure Attachment where
  contentType : Option String
  url : String
deriving DecidableEq, Repr

/-- An inbound embed, carrying an optional embedded image url. -/
structure Embed where
  imageUrl : Option String
deriving DecidableEq, Repr

/-- An inbound message event, with the member state the handler consults. -/
structure Msg where
  authorIsBot : Bool
  authorIsAdmin : Bool
  guildId : String
  channelId : String
  messageId : String
  content : String
  attachments : List Attachment
  embeds : List Embed
  memberRoles : List String
deriving Repr

/-- A guild configuration document (`guildSchema`). -/
structure GuildConfig where
  guildId : String
  activeChannelId : String
  botCommandChannelId : String
deriving DecidableEq, Repr

/-- The mutable process state the messageCreate handler touches: the
`botRunning` flag, the `GuildConfig` collection and the `Image`
collection. -/
structure BotState where
  botRunning : Bool
  configs : List GuildConfig
  db : Ledger
deriving Repr

/-- Image-url collection, index.js lines 221..242: attachments whose
content type starts with `image/` and whose url is non-empty, followed by
embed image urls. -/
def collectImageUrls (m : Msg) : List String :=
  (m.attachments.filterMap (fun a =>
    match a.contentType with
    | some ct => if ct.startsWith "image/" && a.url != "" then some a.url else none
    | none => none))
  ++ m.embeds.filterMap (fun e => e.imageUrl)

/-- `GuildConfig.findOneAndUpdate({ guildId }, cfg, { upsert: true })`. -/
def upsertConfig (cfgs : List GuildConfig) (c : GuildConfig) :
    List GuildConfig :=
  if cfgs.any (fun x => x.guildId == c.guildId) then
    cfgs.map (fun x => if x.guildId == c.guildId then c else x)
  else cfgs ++ [c]

/-- Handling of one image url in the first index.js variant
(lines 249..375): compute the hash (skip on null), look the key up; on a
hit run the CODE CERTIFIED duplicate path (log and continue when the guild
has no such role, guarded revoke otherwise, then delete, DM and notify);
on a miss insert under the compound unique index, converting an E11000
failure into the duplicate fallback (guarded revoke and delete after a
re-check; log only when the record is gone). -/
def handleUrlIndexA (hashOf : String → Option String) (ccRole : Option String)
    (now : Nat) (gid cid mid : String) (db : Ledger) (roles : List String)
    (url : String) : Ledger × List String × List Action :=
  match hashOf url with
  | none => (db, roles, [.fingerprint url])
  | some h =>
      match findOneHashGuild db h gid with
      | some _ =>
          match ccRole with
          | none => (db, roles, [.fingerprint url, .logLine])
          | some role =>
              let step := revokeGuarded role roles
              (db, step.1,
               [Action.fingerprint url] ++ step.2
                 ++ [.deleteMessage, .dmUser, .notifyChannel])
      | none =>
          let r : ImageRecord := ⟨h, gid, cid, mid, url, now, now⟩
          match insertCompoundUnique db r with
          | .ok db' => (db', roles, [.fingerprint url, .logLine])
          | .error _ =>
              match findOneHashGuild db h gid with
              | some _ =>
                  match ccRole with
                  | none => (db, roles, [.fingerprint url, .deleteMessage])
                  | some role =>
                      let step := revokeGuarded role roles
                      (db, step.1,
                       [Action.fingerprint url] ++ step.2 ++ [.deleteMessage])
              | none => (db, roles, [.fingerprint url, .logLine])

/-- The per-message image loop of the first index.js variant. -/
def processImagesIndexA (hashOf : String → Option String)
    (ccRole : Option String) (now : Nat) (gid cid mid : String) :
    Ledger → List String → List String → Ledger × List String × List Action
  | db, roles, [] => (db, roles, [])
  | db, roles, url :: rest =>
      let step := handleUrlIndexA hashOf ccRole now gid cid mid db roles url
      let next := processImagesIndexA hashOf ccRole now gid cid mid
        step.1 step.2.1 rest
      (next.1, next.2.1, step.2.2 ++ next.2.2)

/-- The messageCreate handler of the first index.js variant
(lines 136..379): bot-author guard, config fetch, `!setup` command,
unconfigured-guild guard, active-channel guard, `!startbot` and `!stopbot`
commands, the `botRunning` gate, then image collection and the image
loop. -/
def messageCreateIndexA (hashOf : String → Option String)
    (ccRole : Option String) (now : Nat) (st : BotState) (m : Msg) :
    BotState × List Action :=
  if m.authorIsBot then (st, [])
  else
    let cfg? := st.configs.find? (fun c => c.guildId == m.guildId)
    if m.content.startsWith "!setup" then
      if !m.authorIsAdmin then (st, [.reply "admins only"])
      else
        match m.content.splitOn " " with
        | _ :: a :: b :: _ =>
            if a != "" && b != "" then
              ({ st with configs := upsertConfig st.configs ⟨m.guildId, a, b⟩ },
               [.reply "configuration saved"])
            else (st, [.reply "usage"])
        | _ => (st, [.reply "usage"])
    else
      match cfg? with
      | none => (st, [])
      | some cfg =>
          if m.channelId != cfg.activeChannelId then (st, [])
          else if m.content.startsWith "!startbot"
              || m.content.startsWith "!stopbot" then
            if !m.authorIsAdmin then (st, [.reply "no permission"])
            else if m.content.startsWith "!startbot" then
              ({ st with botRunning := true }, [.reply "bot running"])
            else ({ st with botRunning := false }, [.reply "bot stopped"])
          else if !st.botRunning then (st, [])
          else
            let urls := collectImageUrls m
            if urls.isEmpty then (st, [])
            else
              let res := processImagesIndexA hashOf ccRole now m.guildId
                m.channelId m.messageId st.db m.memberRoles urls
              ({ st with db := res.1 }, res.2.2)

/-- Actions forbidden while the run-state gate is disabled: fingerprinting,
claiming and every penalty side effect. Command replies and log lines are
not moderation actions. -/
def isModerationAction : Action → Bool
  | .fingerprint _ => true
  | .removeRole _ => true
  | .addRole _ => true
  | .scheduleRemoval _ => true
  | .deleteMessage => true
  | .dmUser => true
  | .notifyChannel => true
  | .reply _ => false
  | .logLine => false

/-- 24 hours in milliseconds, the penalty duration of the temp-role
variants (`TEMP_ROLE_DURATION` in part_002, the literal
`24 * 60 * 60 * 1000` in part_000 and test.js). -/
def TEMP_ROLE_DURATION : Nat := 24 * 60 * 60 * 1000

/-- One member with a wall clock, a role set and the pending in-memory
`setTimeout` reversals (firing instant, role to remove). -/
structure MemberTimerState where
  now : Nat
  roles : List String
  timers : List (Nat × String)
deriving DecidableEq, Repr

/-- `assignTempRole` of part_002 lines 131..150 (the inline equivalent in
part_000 lines 310..328): add the role to the member and schedule its
removal `TEMP_ROLE_DURATION` after the current instant. -/
def assignTempRole (st : MemberTimerState) (role : String) :
    MemberTimerState :=
  { st with
    roles := addIfAbsent role st.roles
    timers := st.timers ++ [(st.now + TEMP_ROLE_DURATION, role)] }

/-- Advance the wall clock to `t`: every timer due at or before `t` fires
and performs its `roles.remove`; the rest stay pending. -/
def advanceTo (st : MemberTimerState) (t : Nat) : MemberTimerState :=
  { now := t
    roles := st.timers.foldl
      (fun rs ft => if ft.1 ≤ t then rs.erase ft.2 else rs) st.roles
    timers := st.timers.filter (fun ft => decide (t < ft.1)) }

/-! Helper lemmas about the ledger lookups. -/

theorem findOneHashGuild_map_touch (db : Ledger) (h g : String) (t : Nat) :
    findOneHashGuild
      (db.map (fun x =>
        if x.hash == h && x.guildId == g then { x with updatedAt := t } else x)) h g
    = (findOneHashGuild db h g).map (fun r => { r with updatedAt := t }) := by
  induction db with
  | nil => rfl
  | cons a rest ih =>
      simp only [List.map_cons, findOneHashGuild] at *
      by_cases hk : (a.hash == h && a.guildId == g) = true
      · rw [if_pos hk]
        rw [List.find?_cons_of_pos (p := fun r : ImageRecord => r.hash == h && r.guildId == g)
          _ (by simpa using hk)]
        rw [List.find?_cons_of_pos (p := fun r : ImageRecord => r.hash == h && r.guildId == g)
          _ hk]
        rfl
      · rw [if_neg hk]
        rw [List.find?_cons_of_neg (p := fun r : ImageRecord => r.hash == h && r.guildId == g)
          _ (by simpa using hk)]
        rw [List.find?_cons_of_neg (p := fun r : ImageRecord => r.hash == h && r.guildId == g)
          _ (by simpa using hk)]
        exact ih

theorem findOneHashGuild_append_none (db db2 : Ledger) (h g : String)
    (hnone : findOneHashGuild db h g = none) :
    findOneHashGuild (db ++ db2) h g = findOneHashGuild db2 h g := by
  induction db with
  | nil => rfl
  | cons a rest ih =>
      simp only [findOneHashGuild, List.cons_append, List.find?] at *
      by_cases hk : (a.hash == h && a.guildId == g) = true
      · simp [hk] at hnone
      · simp only [hk] at hnone ⊢
        exact ih hnone

/-- Outcomes of a claim sequence against a key already held by a record
derived from `r0`: every outcome is `AlreadyExists` referencing `r0`,
provided every claim carries a timestamp strictly later than the creation
instant of `r0`. -/
theorem runClaims_after_insert (h g : String) (r0 : ImageRecord) :
    ∀ (rest : List (Nat × Provenance)) (db : Ledger) (u : Nat),
      findOneHashGuild db h g = some { r0 with updatedAt := u } →
      (∀ tp ∈ rest, r0.createdAt < tp.1) →
      (∀ o ∈ (runClaims db h g rest).1, referencesFirst o r0)
        ∧ (runClaims db h g rest).1.countP ClaimOutcome.isInserted = 0 := by
  intro rest
  induction rest with
  | nil =>
      intro db u hfind hlater
      simp [runClaims]
  | cons tp rest ih =>
      intro db u hfind hlater
      obtain ⟨t, p⟩ := tp
      have hlt : r0.createdAt < t := by
        have := hlater (t, p) (by simp)
        simpa using this
      have hne : (r0.createdAt == t) = false := by
        simp [Nat.ne_of_lt hlt]
      have hfind' :
          findOneHashGuild
            (db.map (fun x =>
              if x.hash == h && x.guildId == g then { x with updatedAt := t }
              else x)) h g
          = some { r0 with updatedAt := t } := by
        rw [findOneHashGuild_map_touch, hfind]
        rfl
      have hrest := ih (db.map (fun x =>
          if x.hash == h && x.guildId == g then { x with updatedAt := t }
          else x)) t hfind'
        (by intro tp htp; exact hlater tp (by simp [htp]))
      simp only [runClaims, claimUpsert, hfind, hne]
      constructor
      · intro o ho
        simp only [Bool.false_eq_true, if_false, List.mem_cons] at ho
        rcases ho with rfl | ho
        · exact ⟨t, rfl⟩
        · exact hrest.1 o ho
      · simp only [Bool.false_eq_true, if_false, List.countP_cons,
          ClaimOutcome.isInserted, Nat.add_zero]
        exact hrest.2

/-- Claim C1. Corrected uniqueness invariant for the atomic-upsert ledger
of test.js and part_000: starting from a ledger that does not hold the key
`(h, g)`, a first claim at instant `t0` followed by any sequence of claims
each carrying a strictly later store timestamp produces exactly one
`Inserted` outcome (the first), and every other outcome is `AlreadyExists`
referencing the first record. The strict-timestamp hypothesis is forced by
the source, which detects insertion by comparing `createdAt` with
`updatedAt`: a duplicate claim landing in the very millisecond of the
insert is misreported as `Inserted` (see the counterexample). -/
theorem ledger_claim_unique_inserted (db : Ledger) (h g : String) (t0 : Nat)
    (p0 : Provenance) (rest : List (Nat × Provenance))
    (hnone : findOneHashGuild db h g = none)
    (hlater : ∀ tp ∈ rest, t0 < tp.1) :
    let r0 : ImageRecord := ⟨h, g, p0.channelId, p0.messageId, p0.url, t0, t0⟩
    (runClaims db h g ((t0, p0) :: rest)).1.head?
        = some (.wasInserted r0)
      ∧ (∀ o ∈ (runClaims db h g ((t0, p0) :: rest)).1.tail,
          referencesFirst o r0)
      ∧ (runClaims db h g ((t0, p0) :: rest)).1.countP
          ClaimOutcome.isInserted = 1 := by
  intro r0
  have hstep : claimUpsert db h g p0 t0 = (.wasInserted r0, db ++ [r0]) := by
    simp [claimUpsert, hnone]
  have hone : findOneHashGuild [r0] h g = some { r0 with updatedAt := t0 } := by
    simp [findOneHashGuild, List.find?]
  have hfind : findOneHashGuild (db ++ [r0]) h g
      = some { r0 with updatedAt := t0 } := by
    rw [findOneHashGuild_append_none db _ h g hnone]
    exact hone
  have haux := runClaims_after_insert h g r0 rest (db ++ [r0]) t0 hfind hlater
  simp only [runClaims, hstep]
  refine ⟨rfl, ?_, ?_⟩
  · intro o ho
    exact haux.1 o (by simpa using ho)
  · simp [List.countP_cons, haux.2, ClaimOutcome.isInserted]

/-- Witness for `ledger_claim_unique_inserted` at a concrete input. -/
theorem ledger_claim_unique_inserted_witness :
    (findOneHashGuild [] "f" "g" = none)
    ∧ (∀ tp ∈ [((6 : Nat), (⟨"c", "m2", "u2"⟩ : Provenance)),
        (7, ⟨"c", "m3", "u3"⟩)], 5 < tp.1)
    ∧ (runClaims [] "f" "g"
        [(5, ⟨"c", "m1", "u1"⟩), (6, ⟨"c", "m2", "u2"⟩),
         (7, ⟨"c", "m3", "u3"⟩)]).1.countP ClaimOutcome.isInserted = 1 :=
  ⟨rfl, by decide,
    (ledger_claim_unique_inserted [] "f" "g" 5 ⟨"c", "m1", "u1"⟩
      [(6, ⟨"c", "m2", "u2"⟩), (7, ⟨"c", "m3", "u3"⟩)] rfl (by decide)).2.2⟩

/-- Counterexample to claim C1 as stated: two claims of the same key landing
in the same millisecond (the concurrent case) are both classified as
`Inserted`, because the source detects insertion by
`createdAt.getTime() === updatedAt.getTime()` and a same-instant update
leaves the two timestamps equal. -/
theorem ledger_claim_same_ms_double_inserted_cex :
    (runClaims [] "f" "g"
      [(5, ⟨"c", "m1", "u1"⟩), (5, ⟨"c", "m2", "u2"⟩)]).1.countP
        ClaimOutcome.isInserted = 2 := by
  decide

/-- Claim C2. Amended cross-community independence: under the compound
`(hash, guildId)` unique key of the first index.js variant, test.js and
part_000, claims of the same fingerprint in two different communities both
return `Inserted`, and the second claim leaves the first community record
untouched. -/
theorem cross_community_independence (db : Ledger) (h c1 c2 : String)
    (p1 p2 : Provenance) (t1 t2 : Nat)
    (h1 : findOneHashGuild db h c1 = none)
    (h2 : findOneHashGuild db h c2 = none)
    (hne : c1 ≠ c2) :
    (claimUpsert db h c1 p1 t1).1.isInserted = true
    ∧ (claimUpsert (claimUpsert db h c1 p1 t1).2 h c2 p2 t2).1.isInserted
        = true
    ∧ findOneHashGuild
        (claimUpsert (claimUpsert db h c1 p1 t1).2 h c2 p2 t2).2 h c1
      = some ⟨h, c1, p1.channelId, p1.messageId, p1.url, t1, t1⟩ := by
  have hc : (c1 == c2) = false := by simp [hne]
  have hstep1 : claimUpsert db h c1 p1 t1
      = (.wasInserted ⟨h, c1, p1.channelId, p1.messageId, p1.url, t1, t1⟩,
         db ++ [⟨h, c1, p1.channelId, p1.messageId, p1.url, t1, t1⟩]) := by
    simp [claimUpsert, h1]
  have hnone2 : findOneHashGuild
      (db ++ [⟨h, c1, p1.channelId, p1.messageId, p1.url, t1, t1⟩]) h c2
      = none := by
    rw [findOneHashGuild_append_none db _ h c2 h2]
    simp [findOneHashGuild, List.find?, hc]
  have hstep2 : claimUpsert
      (db ++ [⟨h, c1, p1.channelId, p1.messageId, p1.url, t1, t1⟩]) h c2 p2 t2
      = (.wasInserted ⟨h, c2, p2.channelId, p2.messageId, p2.url, t2, t2⟩,
         (db ++ [⟨h, c1, p1.channelId, p1.messageId, p1.url, t1, t1⟩])
           ++ [⟨h, c2, p2.channelId, p2.messageId, p2.url, t2, t2⟩]) := by
    simp [claimUpsert, hnone2]
  refine ⟨?_, ?_, ?_⟩
  · rw [hstep1]; rfl
  · rw [hstep1]
    simp only
    rw [hstep2]
    rfl
  · rw [hstep1]
    simp only
    rw [hstep2]
    simp only
    rw [List.append_assoc, findOneHashGuild_append_none db _ h c1 h1]
    simp [findOneHashGuild, List.find?]

/-- Witness for `cross_community_independence` at a concrete input. -/
theorem cross_community_independence_witness :
    (findOneHashGuild [] "f" "c1" = none)
    ∧ (findOneHashGuild [] "f" "c2" = none)
    ∧ ("c1" : String) ≠ "c2"
    ∧ (claimUpsert [] "f" "c1" ⟨"ch", "m1", "u1"⟩ 1).1.isInserted = true
    ∧ (claimUpsert (claimUpsert [] "f" "c1" ⟨"ch", "m1", "u1"⟩ 1).2 "f" "c2"
        ⟨"ch", "m2", "u2"⟩ 2).1.isInserted = true :=
  ⟨rfl, rfl, by decide,
    (cross_community_independence [] "f" "c1" "c2" ⟨"ch", "m1", "u1"⟩
      ⟨"ch", "m2", "u2"⟩ 1 2 rfl rfl (by decide)).1,
    (cross_community_independence [] "f" "c1" "c2" ⟨"ch", "m1", "u1"⟩
      ⟨"ch", "m2", "u2"⟩ 1 2 rfl rfl (by decide)).2.1⟩

/-- Counterexample to claim C2 as stated: in the second index.js variant and
part_002 the schema declares `hash` globally unique, so after community c1
claims a fingerprint, the claim of the same fingerprint by a different
community c2 does not return `Inserted`: it is treated as a duplicate of
the c1 record. -/
theorem global_hash_schema_interference_cex :
    ("c1" : String) ≠ "c2"
    ∧ (claimGlobal [] "f" "c1" ⟨"ch", "m1", "u1"⟩ 1).1
        = .wasInserted ⟨"f", "c1", "ch", "m1", "u1", 1, 1⟩
    ∧ (claimGlobal (claimGlobal [] "f" "c1" ⟨"ch", "m1", "u1"⟩ 1).2 "f" "c2"
        ⟨"ch", "m2", "u2"⟩ 2).1
      = .alreadyExists ⟨"f", "c1", "ch", "m1", "u1", 1, 1⟩ :=
  ⟨by decide, rfl, rfl⟩

/-- Claim C3 (amended). For the guarded revoke of index.js and test.js,
driving the duplicate outcome twice for the same member is idempotent: the
second application changes no role and issues no revoke (it only logs),
and a revoke is ever issued only for a role the member holds. The
unguarded revoke of the second part_000 variant issues the platform call
without the membership check, but reapplying it still leaves the role set
unchanged, since removal from a duplicate-free role set is idempotent. -/
theorem penalty_revoke_idempotent (role : String) (roles : List String)
    (hnd : roles.Nodup) :
    (revokeGuarded role (revokeGuarded role roles).1).1
        = (revokeGuarded role roles).1
    ∧ (revokeGuarded role (revokeGuarded role roles).1).2 = [.logLine]
    ∧ (∀ r, Action.removeRole r ∈ (revokeGuarded role roles).2 →
        role = r ∧ roles.contains r = true)
    ∧ (revokeUnguarded role (revokeUnguarded role roles).1).1
        = (revokeUnguarded role roles).1 := by
  by_cases hc : roles.contains role = true
  · have hmem : role ∈ roles := List.elem_iff.1 hc
    have hne : role ∉ roles.erase role := by
      intro hx
      exact absurd (hnd.mem_erase_iff.1 hx).1 (by simp)
    have hc2 : ¬ (roles.erase role).contains role = true := by
      intro hx
      exact hne (List.elem_iff.1 hx)
    have h1 : revokeGuarded role roles
        = (roles.erase role, [Action.removeRole role]) := by
      simp only [revokeGuarded]
      rw [if_pos hc]
    have h2 : revokeGuarded role (roles.erase role)
        = (roles.erase role, [Action.logLine]) := by
      simp only [revokeGuarded]
      rw [if_neg hc2]
    refine ⟨?_, ?_, ?_, ?_⟩
    · simp [h1, h2]
    · simp [h1, h2]
    · intro r hr
      rw [h1] at hr
      simp only [List.mem_singleton, Action.removeRole.injEq] at hr
      exact ⟨hr.symm, hr ▸ hc⟩
    · simp [revokeUnguarded, List.erase_of_not_mem hne]
  · have hmem : role ∉ roles := fun hx => hc (List.elem_iff.2 hx)
    have h1 : revokeGuarded role roles = (roles, [Action.logLine]) := by
      simp only [revokeGuarded]
      rw [if_neg hc]
    refine ⟨?_, ?_, ?_, ?_⟩
    · simp [h1]
    · simp [h1]
    · intro r hr
      rw [h1] at hr
      simp at hr
    · simp [revokeUnguarded, List.erase_of_not_mem hmem]

/-- Witness for `penalty_revoke_idempotent` at a concrete input. -/
theorem penalty_revoke_idempotent_witness :
    (["CODE CERTIFIED", "member"] : List String).Nodup
    ∧ (revokeGuarded "CODE CERTIFIED"
        (revokeGuarded "CODE CERTIFIED" ["CODE CERTIFIED", "member"]).1).1
      = (revokeGuarded "CODE CERTIFIED" ["CODE CERTIFIED", "member"]).1
    ∧ (revokeGuarded "CODE CERTIFIED"
        (revokeGuarded "CODE CERTIFIED" ["CODE CERTIFIED", "member"]).1).2
      = [.logLine] :=
  ⟨by decide,
    (penalty_revoke_idempotent "CODE CERTIFIED" ["CODE CERTIFIED", "member"]
      (by decide)).1,
    (penalty_revoke_idempotent "CODE CERTIFIED" ["CODE CERTIFIED", "member"]
      (by decide)).2.1⟩

/-- Counterexample to claim C3 as stated: in the second part_000 variant
the revoke is not guarded by a membership check. For a member who does not
hold the CODE CERTIFIED role, the duplicate path still issues the
`roles.remove` mutation. -/
theorem unguarded_revoke_cex :
    (["member"] : List String).contains "CODE CERTIFIED" = false
    ∧ (revokeUnguarded "CODE CERTIFIED" ["member"]).2
      = [.removeRole "CODE CERTIFIED"] :=
  ⟨by decide, rfl⟩

/-- Decomposition of `deleteOne({ messageId })`: when `find?` returns the
record `r`, the collection splits into a prefix with no match, the
occurrence of `r`, and a suffix, and `eraseP` removes exactly that single
occurrence. -/
theorem find?_eraseP_decomp (p : ImageRecord → Bool) (db : Ledger)
    (r : ImageRecord) (hfind : db.find? p = some r) :
    ∃ l1 l2, (∀ b ∈ l1, p b = false) ∧ db = l1 ++ r :: l2
      ∧ db.eraseP p = l1 ++ l2 := by
  induction db with
  | nil => simp [List.find?] at hfind
  | cons a rest ih =>
      by_cases hk : p a = true
      · have hra : r = a := by
          rw [List.find?_cons_of_pos _ hk] at hfind
          exact (Option.some.injEq a r ▸ hfind).symm
        refine ⟨[], rest, by simp, by simp [hra], ?_⟩
        simp [List.eraseP_cons_of_pos hk]
      · have hfind' : rest.find? p = some r := by
          rw [List.find?_cons_of_neg _ hk] at hfind
          exact hfind
        obtain ⟨l1, l2, hl1, hdb, herase⟩ := ih hfind'
        refine ⟨a :: l1, l2, ?_, by simp [hdb], ?_⟩
        · intro b hb
          rcases List.mem_cons.1 hb with rfl | hb
          · simpa using hk
          · exact hl1 b hb
        · rw [List.eraseP_cons_of_neg hk]
          simp [herase]

/-- Claim C4 (amended). For the ungated messageDelete handler of index.js,
test.js and part_000: when no record matches the deleted message the
handler is a no-op. When a record `r` matches and is the first record
carrying the deleted message id (`deleteOne({ messageId })` removes the
first such document), then under the compound-unique-index invariant
(pairwise distinct `(hash, guildId)` keys) exactly `r` is removed: every
other record survives, the key of `r` is free again and a subsequent claim
of that fingerprint in that community returns `Inserted`, while the key of
every surviving record is still claimed. In particular a message that
produced several records (one per image attachment, all sharing its
message id) has only its first record cleaned up: the siblings survive and
their images are still flagged duplicate on resubmission. -/
theorem cleanup_on_delete (db : Ledger) (mid gid : String) :
    (db.find? (fun r => r.messageId == mid && r.guildId == gid) = none →
      messageDeleteHandler db mid gid = db)
    ∧ (∀ r, db.find? (fun r => r.messageId == mid && r.guildId == gid)
          = some r →
        db.find? (fun r => r.messageId == mid) = some r →
        (db.map (fun x => (x.hash, x.guildId))).Nodup →
        r ∉ messageDeleteHandler db mid gid
        ∧ (∀ x ∈ db, x ≠ r → x ∈ messageDeleteHandler db mid gid)
        ∧ findOneHashGuild (messageDeleteHandler db mid gid) r.hash r.guildId
            = none
        ∧ (∀ x ∈ db, x ≠ r →
            findOneHashGuild (messageDeleteHandler db mid gid) x.hash
              x.guildId ≠ none)
        ∧ ∀ p now,
            (claimUpsert (messageDeleteHandler db mid gid) r.hash r.guildId
              p now).1.isInserted = true) := by
  constructor
  · intro hnone
    simp [messageDeleteHandler, hnone]
  · intro r hfind hfirst hkeys
    have hinj := List.inj_on_of_nodup_map hkeys
    have hrdb : r ∈ db := List.mem_of_find?_eq_some hfind
    have hpm := List.find?_some hfirst
    have hhandler : messageDeleteHandler db mid gid
        = db.eraseP (fun x => x.messageId == mid) := by
      simp [messageDeleteHandler, hfind]
    obtain ⟨l1, l2, hl1, hdb, herase⟩ :=
      find?_eraseP_decomp (fun x => x.messageId == mid) db r hfirst
    have hkeys' : ((l1 ++ r :: l2).map
        (fun x => (x.hash, x.guildId))).Nodup := by
      rw [← hdb]
      exact hkeys
    have hrl2keys : (fun x => (x.hash, x.guildId)) r
        ∉ l2.map (fun x => (x.hash, x.guildId)) := by
      rw [List.map_append, List.map_cons] at hkeys'
      exact (List.nodup_cons.1 (List.nodup_append.1 hkeys').2.1).1
    have hnr : r ∉ messageDeleteHandler db mid gid := by
      rw [hhandler, herase]
      intro hx
      rcases List.mem_append.1 hx with hx | hx
      · exact absurd hpm (by simp [hl1 r hx])
      · exact hrl2keys (List.mem_map.2 ⟨r, hx, rfl⟩)
    have hsurv : ∀ x ∈ db, x ≠ r → x ∈ messageDeleteHandler db mid gid := by
      intro x hx hxr
      rw [hhandler, herase]
      rw [hdb] at hx
      rcases List.mem_append.1 hx with hx | hx
      · exact List.mem_append.2 (Or.inl hx)
      · rcases List.mem_cons.1 hx with rfl | hx
        · exact absurd rfl hxr
        · exact List.mem_append.2 (Or.inr hx)
    have hnone : findOneHashGuild (messageDeleteHandler db mid gid)
        r.hash r.guildId = none := by
      rw [findOneHashGuild, List.find?_eq_none]
      intro x hx hpx
      have hxdb : x ∈ db := by
        rw [hhandler] at hx
        exact (List.eraseP_sublist db).mem hx
      have hxpx : x.hash = r.hash ∧ x.guildId = r.guildId := by
        simpa using hpx
      have hxr : x = r := hinj hxdb hrdb (by
        rw [Prod.mk.injEq]
        exact hxpx)
      exact hnr (hxr ▸ hx)
    refine ⟨hnr, hsurv, hnone, ?_, ?_⟩
    · intro x hx hxr heq
      exact (List.find?_eq_none.1 heq) x (hsurv x hx hxr) (by simp)
    · intro p now
      simp [claimUpsert, hnone, ClaimOutcome.isInserted]

/-- Witness for `cleanup_on_delete` at a concrete input. -/
theorem cleanup_on_delete_witness :
    ([⟨"f", "c1", "ch", "m1", "u1", 1, 1⟩] : Ledger).find?
        (fun r => r.messageId == "m1" && r.guildId == "c1")
      = some ⟨"f", "c1", "ch", "m1", "u1", 1, 1⟩
    ∧ ([⟨"f", "c1", "ch", "m1", "u1", 1, 1⟩] : Ledger).find?
        (fun r => r.messageId == "m1")
      = some ⟨"f", "c1", "ch", "m1", "u1", 1, 1⟩
    ∧ (claimUpsert (messageDeleteHandler [⟨"f", "c1", "ch", "m1", "u1", 1, 1⟩]
        "m1" "c1") "f" "c1" ⟨"ch2", "m2", "u2"⟩ 9).1.isInserted = true :=
  ⟨rfl, rfl,
    ((cleanup_on_delete [⟨"f", "c1", "ch", "m1", "u1", 1, 1⟩] "m1" "c1").2
      ⟨"f", "c1", "ch", "m1", "u1", 1, 1⟩ rfl rfl (by decide)).2.2.2.2
      ⟨"ch2", "m2", "u2"⟩ 9⟩

/-- Counterexample to claim C4 as stated, in both of its failure modes.
First, the messageDelete handler of the second index.js variant skips
cleanup entirely while the bot is stopped, so the record survives the
deletion of its original message and a resubmission of the same
fingerprint is still treated as a duplicate. Second, even in the ungated
handlers, a message with two image attachments produces two records
sharing its message id; `deleteOne({ messageId })` removes only the first,
so the second record survives the deletion of the message that produced it
and a resubmission of that image is still flagged duplicate, not treated
as new. -/
theorem gated_delete_skips_cleanup_cex :
    messageDeleteHandlerGated false [⟨"f", "c1", "ch", "m1", "u1", 1, 1⟩] "m1"
      = [⟨"f", "c1", "ch", "m1", "u1", 1, 1⟩]
    ∧ (claimGlobal (messageDeleteHandlerGated false
        [⟨"f", "c1", "ch", "m1", "u1", 1, 1⟩] "m1") "f" "c1"
        ⟨"ch", "m9", "u9"⟩ 9).1
      = .alreadyExists ⟨"f", "c1", "ch", "m1", "u1", 1, 1⟩
    ∧ messageDeleteHandler
        [⟨"fA", "c1", "ch", "m1", "uA", 1, 1⟩,
         ⟨"fB", "c1", "ch", "m1", "uB", 1, 1⟩] "m1" "c1"
      = [⟨"fB", "c1", "ch", "m1", "uB", 1, 1⟩]
    ∧ (claimUpsert (messageDeleteHandler
        [⟨"fA", "c1", "ch", "m1", "uA", 1, 1⟩,
         ⟨"fB", "c1", "ch", "m1", "uB", 1, 1⟩] "m1" "c1")
        "fB" "c1" ⟨"ch", "m9", "u9"⟩ 9).1
      = .alreadyExists ⟨"fB", "c1", "ch", "m1", "uB", 1, 9⟩ :=
  ⟨rfl, rfl, by decide, by decide⟩

/-- Claim C5 (amended). In the test.js E11000 catch, a uniqueness violation
raised by the attempted insert is converted into the duplicate outcome:
when the record is found on re-check, the member role state is exactly the
clean-lookup duplicate state and the emitted effects are the clean-lookup
effects plus one extra DM attempt; when the record cannot be found (race
with a concurrent delete), the image is skipped with no penalty and the
anomaly is only logged. -/
theorem e11000_duplicate_conversion (db2 : Ledger) (h g : String)
    (ccRole : Option String) (roles : List String) :
    ((findOneHashGuild db2 h g).isSome = true →
      (e11000HandlerTestJs db2 h g ccRole roles).1
          = (dupHandlingCertified ccRole roles).1
        ∧ (e11000HandlerTestJs db2 h g ccRole roles).2
          = (dupHandlingCertified ccRole roles).2 ++ [.dmUser])
    ∧ (findOneHashGuild db2 h g = none →
      e11000HandlerTestJs db2 h g ccRole roles = (roles, [.logLine])) := by
  constructor
  · intro hs
    obtain ⟨r, hr⟩ := Option.isSome_iff_exists.1 hs
    cases ccRole with
    | none => simp [e11000HandlerTestJs, dupHandlingCertified, hr]
    | some role =>
        by_cases hc : roles.contains role = true
        · simp [e11000HandlerTestJs, dupHandlingCertified, hr, hc]
        · simp [e11000HandlerTestJs, dupHandlingCertified, hr, hc]
  · intro hn
    simp [e11000HandlerTestJs, hn]

/-- Witness for `e11000_duplicate_conversion` at a concrete input. -/
theorem e11000_duplicate_conversion_witness :
    (findOneHashGuild [⟨"f", "c1", "ch", "m1", "u1", 1, 1⟩] "f" "c1").isSome
        = true
    ∧ (e11000HandlerTestJs [⟨"f", "c1", "ch", "m1", "u1", 1, 1⟩] "f" "c1"
        (some "cc") ["cc"]).2
      = (dupHandlingCertified (some "cc") ["cc"]).2 ++ [.dmUser] :=
  ⟨rfl,
    ((e11000_duplicate_conversion [⟨"f", "c1", "ch", "m1", "u1", 1, 1⟩]
      "f" "c1" (some "cc") ["cc"]).1 rfl).2⟩

/-- Counterexample to claim C5 as stated: in part_002 the uniqueness
violation on the plain save is only logged. With a record of the same hash
already present (so that the save reports E11000), the insert path leaves
the ledger unchanged and emits a log line only: no duplicate handling of
any kind runs. -/
theorem part002_e11000_log_only_cex :
    saveGlobalUnique [⟨"f", "c1", "ch", "m1", "u1", 1, 1⟩]
        ⟨"f", "c2", "ch", "m2", "u2", 2, 2⟩ = .error 11000
    ∧ insertPathPart002 [⟨"f", "c1", "ch", "m1", "u1", 1, 1⟩] "f" "c2"
        ⟨"ch", "m2", "u2"⟩ 2
      = ([⟨"f", "c1", "ch", "m1", "u1", 1, 1⟩], [Action.logLine])
    ∧ (insertPathPart002 [⟨"f", "c1", "ch", "m1", "u1", 1, 1⟩] "f" "c2"
        ⟨"ch", "m2", "u2"⟩ 2).2.all (fun a => !isModerationAction a) = true :=
  ⟨rfl, rfl, rfl⟩

/-- Claim C6. When the run-state gate is disabled, the messageCreate
handler performs no fingerprinting, no claim and no penalty action for any
message, whatever its channel or content, and the image ledger is left
untouched (only command replies and logs can occur). -/
theorem run_state_gate_enforcement (hashOf : String → Option String)
    (ccRole : Option String) (now : Nat) (st : BotState) (m : Msg)
    (hstopped : st.botRunning = false) :
    ((messageCreateIndexA hashOf ccRole now st m).2.all
        (fun a => !isModerationAction a)) = true
    ∧ (messageCreateIndexA hashOf ccRole now st m).1.db = st.db := by
  unfold messageCreateIndexA
  repeat' split
  all_goals try simp_all [isModerationAction]
  all_goals repeat' split
  all_goals simp_all [isModerationAction]

/-- Witness for `run_state_gate_enforcement` at a concrete input. -/
theorem run_state_gate_enforcement_witness :
    (⟨false, [⟨"g", "ch", "cmd"⟩], []⟩ : BotState).botRunning = false
    ∧ ((messageCreateIndexA (fun _ => some "h16") none 7
        ⟨false, [⟨"g", "ch", "cmd"⟩], []⟩
        ⟨false, false, "g", "ch", "m1", "look",
          [⟨some "image/png", "u1"⟩], [], ["cc"]⟩).2.all
        (fun a => !isModerationAction a)) = true :=
  ⟨rfl,
    (run_state_gate_enforcement (fun _ => some "h16") none 7
      ⟨false, [⟨"g", "ch", "cmd"⟩], []⟩
      ⟨false, false, "g", "ch", "m1", "look",
        [⟨some "image/png", "u1"⟩], [], ["cc"]⟩ rfl).1⟩

/-- Claim C7 (amended). Once the temp role is resolved (found in the guild
cache), the remaining penalty side effects of the duplicate path (role
grant, scheduled reversal, message deletion, DM, channel notification) are
each attempted independently: the attempted trace does not depend on which
platform calls fail. But when the role is absent and its creation fails,
the handler continues to the next image: none of the remaining side
effects is attempted. -/
theorem dup_side_effects_independent (role : String) (roles : List String)
    (eff eff' : EffectFlags) :
    (dupTempRoleBody role roles eff).2 = (dupTempRoleBody role roles eff').2
    ∧ (dupTempRoleBody role roles eff).2
      = [.addRole role, .scheduleRemoval role, .deleteMessage, .dmUser,
         .notifyChannel]
    ∧ (∀ env : TempRoleEnv, env.tempRoleId = some role →
        (dupHandlingTempRole env roles eff).2
          = (dupTempRoleBody role roles eff).2)
    ∧ (∀ env : TempRoleEnv, env.tempRoleId = none →
        env.createdRoleId = none →
        (dupHandlingTempRole env roles eff).2 = [.logLine]) := by
  refine ⟨rfl, rfl, ?_, ?_⟩
  · intro env h1
    simp [dupHandlingTempRole, h1]
  · intro env h1 h2
    simp [dupHandlingTempRole, h1, h2]

/-- Witness for `dup_side_effects_independent` at a concrete input. -/
theorem dup_side_effects_independent_witness :
    (⟨none, none⟩ : TempRoleEnv).tempRoleId = none
    ∧ (⟨none, none⟩ : TempRoleEnv).createdRoleId = none
    ∧ (dupHandlingTempRole ⟨none, none⟩ ["member"]
        ⟨true, true, true, true⟩).2 = [.logLine] :=
  ⟨rfl, rfl,
    (dup_side_effects_independent "temp" ["member"] ⟨true, true, true, true⟩
      ⟨false, false, false, false⟩).2.2.2 ⟨none, none⟩ rfl rfl⟩

/-- Counterexample to claim C7 as stated: when temp-role creation fails,
the part_000 and second test.js duplicate paths `continue`, so the message
deletion, the DM and the channel notification are all skipped for that
image: the failure of one side effect does abort the others. -/
theorem temp_role_creation_failure_aborts_cex :
    (dupHandlingTempRole ⟨none, none⟩ ["member"]
        ⟨true, true, true, true⟩).2 = [.logLine]
    ∧ Action.deleteMessage ∉ (dupHandlingTempRole ⟨none, none⟩ ["member"]
        ⟨true, true, true, true⟩).2
    ∧ Action.dmUser ∉ (dupHandlingTempRole ⟨none, none⟩ ["member"]
        ⟨true, true, true, true⟩).2
    ∧ Action.notifyChannel ∉ (dupHandlingTempRole ⟨none, none⟩ ["member"]
        ⟨true, true, true, true⟩).2 := by
  refine ⟨rfl, ?_, ?_, ?_⟩ <;> decide

/-- Claim C8. computeImageHash always returns a value: a successful fetch
and hash yield the hash data; a non-ok response, a network error or a
hashing error yield `none`; every error thrown inside the body is caught
and converted to `none`, so no exception escapes to the caller. The caller
(first index.js variant) then skips an unhashable image without touching
the ledger, the member roles, or any penalty effect. -/
theorem compute_fingerprint_total (fetch : FetchOutcome)
    (hasher : String → HashOutcome) :
    (∀ u d, fetch = .success u → hasher u = .data d →
        computeImageHash fetch hasher = some d)
    ∧ (∀ s, fetch = .httpFailure s → computeImageHash fetch hasher = none)
    ∧ (∀ e, fetch = .networkFailure e → computeImageHash fetch hasher = none)
    ∧ (∀ u e, fetch = .success u → hasher u = .failure e →
        computeImageHash fetch hasher = none)
    ∧ (∀ e, computeImageHashBody fetch hasher = .error e →
        computeImageHash fetch hasher = none)
    ∧ (∀ (hashOf : String → Option String) (ccRole : Option String)
        (now : Nat) (gid cid mid : String) (db : Ledger)
        (roles : List String) (url : String), hashOf url = none →
        handleUrlIndexA hashOf ccRole now gid cid mid db roles url
          = (db, roles, [.fingerprint url])) := by
  refine ⟨?_, ?_, ?_, ?_, ?_, ?_⟩
  · rintro u d rfl hu
    simp [computeImageHash, computeImageHashBody, hu]
  · rintro s rfl
    rfl
  · rintro e rfl
    rfl
  · rintro u e rfl hu
    simp [computeImageHash, computeImageHashBody, hu]
  · intro e he
    simp [computeImageHash, he]
  · intro hashOf ccRole now gid cid mid db roles url h
    simp [handleUrlIndexA, h]

/-- Witness for `compute_fingerprint_total` at a concrete input. -/
theorem compute_fingerprint_total_witness :
    ((.success "final-url" : FetchOutcome) = .success "final-url")
    ∧ ((fun _ : String => HashOutcome.data "h16") "final-url" = .data "h16")
    ∧ computeImageHash (.success "final-url")
        (fun _ => HashOutcome.data "h16") = some "h16" :=
  ⟨rfl, rfl,
    (compute_fingerprint_total (.success "final-url")
      (fun _ => HashOutcome.data "h16")).1 "final-url" "h16" rfl rfl⟩

/-- Erase-only folds never introduce a member: a role absent from the role
set stays absent while due timers fire. -/
theorem foldl_erase_not_mem (timers : List (Nat × String)) (t : Nat)
    (rs : List String) (x : String) (hx : x ∉ rs) :
    x ∉ timers.foldl
      (fun rs ft => if ft.1 ≤ t then rs.erase ft.2 else rs) rs := by
  induction timers generalizing rs with
  | nil => simpa using hx
  | cons ft rest ih =>
      simp only [List.foldl_cons]
      by_cases hf : ft.1 ≤ t
      · rw [if_pos hf]
        exact ih _ (fun hmem => hx (List.mem_of_mem_erase hmem))
      · rw [if_neg hf]
        exact ih _ hx

/-- If some due timer removes `role` then `role` is absent from the role
set after the fold, provided the role set has no duplicates. -/
theorem foldl_erase_fires (timers : List (Nat × String)) (t : Nat) :
    ∀ (rs : List String) (role : String), rs.Nodup →
    (∃ f, (f, role) ∈ timers ∧ f ≤ t) →
    role ∉ timers.foldl
      (fun rs ft => if ft.1 ≤ t then rs.erase ft.2 else rs) rs := by
  induction timers with
  | nil =>
      rintro rs role hnd ⟨f, hf, _⟩
      simp at hf
  | cons ft rest ih =>
      rintro rs role hnd ⟨f, hf, hle⟩
      simp only [List.foldl_cons]
      by_cases hfire : ft.1 ≤ t
      · rw [if_pos hfire]
        rcases List.mem_cons.1 hf with heq | hmem
        · have hrole : ft.2 = role := by rw [← heq]
          have habs : role ∉ rs.erase ft.2 := by
            rw [hrole]
            intro hmm
            exact absurd (hnd.mem_erase_iff.1 hmm).1 (by simp)
          exact foldl_erase_not_mem rest t _ role habs
        · exact ih (rs.erase ft.2) role (hnd.erase _) ⟨f, hmem, hle⟩
      · rw [if_neg hfire]
        rcases List.mem_cons.1 hf with heq | hmem
        · exfalso
          apply hfire
          have hfeq : ft.1 = f := by rw [← heq]
          rw [hfeq]
          exact hle
        · exact ih rs role hnd ⟨f, hmem, hle⟩

/-- A held role survives the fold when no due timer targets it. -/
theorem foldl_erase_keeps (timers : List (Nat × String)) (t : Nat) :
    ∀ (rs : List String) (role : String), role ∈ rs →
    (∀ ft ∈ timers, ft.2 ≠ role ∨ t < ft.1) →
    role ∈ timers.foldl
      (fun rs ft => if ft.1 ≤ t then rs.erase ft.2 else rs) rs := by
  induction timers with
  | nil =>
      intro rs role h _
      simpa using h
  | cons ft rest ih =>
      intro rs role hmem hsafe
      simp only [List.foldl_cons]
      by_cases hfire : ft.1 ≤ t
      · rw [if_pos hfire]
        have hne : ft.2 ≠ role := by
          rcases hsafe ft (by simp) with h | h
          · exact h
          · exact absurd hfire (by omega)
        refine ih _ role ?_ (fun x hx => hsafe x (by simp [hx]))
        exact (List.mem_erase_of_ne (Ne.symm hne)).2 hmem
      · rw [if_neg hfire]
        exact ih rs role hmem (fun x hx => hsafe x (by simp [hx]))

/-- Adding a role to a duplicate-free role set keeps it duplicate-free. -/
theorem addIfAbsent_nodup (role : String) (rs : List String)
    (h : rs.Nodup) : (addIfAbsent role rs).Nodup := by
  unfold addIfAbsent
  by_cases hc : rs.contains role = true
  · rw [if_pos hc]
    exact h
  · rw [if_neg hc]
    have hnm : role ∉ rs := fun hx => hc (List.elem_iff.2 hx)
    simp [List.nodup_append, h, hnm]

/-- The added role is a member of the result. -/
theorem mem_addIfAbsent (role : String) (rs : List String) :
    role ∈ addIfAbsent role rs := by
  unfold addIfAbsent
  by_cases hc : rs.contains role = true
  · rw [if_pos hc]
    exact List.elem_iff.1 hc
  · rw [if_neg hc]
    simp

/-- Claim C9. A temp-role grant issued at the current instant is reversed
at or after the 24-hour duration: at any instant at least
`TEMP_ROLE_DURATION` later the scheduled timer has fired and the member no
longer holds the role; and at any earlier instant (with no other pending
timer due for that role) the member still holds it. -/
theorem penalty_grant_expiry (st : MemberTimerState) (role : String)
    (hnd : st.roles.Nodup) :
    (∀ T, st.now + TEMP_ROLE_DURATION ≤ T →
      role ∉ (advanceTo (assignTempRole st role) T).roles)
    ∧ (∀ T, T < st.now + TEMP_ROLE_DURATION →
      (∀ ft ∈ st.timers, ft.2 ≠ role ∨ T < ft.1) →
      role ∈ (advanceTo (assignTempRole st role) T).roles) := by
  constructor
  · intro T hT
    simp only [advanceTo, assignTempRole]
    apply foldl_erase_fires
    · exact addIfAbsent_nodup role st.roles hnd
    · exact ⟨st.now + TEMP_ROLE_DURATION, by simp, hT⟩
  · intro T hT hsafe
    simp only [advanceTo, assignTempRole]
    apply foldl_erase_keeps
    · exact mem_addIfAbsent role st.roles
    · intro ft hft
      rcases List.mem_append.1 hft with hmem | hmem
      · exact hsafe ft hmem
      · right
        have : ft = (st.now + TEMP_ROLE_DURATION, role) := by simpa using hmem
        rw [this]
        exact hT

/-- Witness for `penalty_grant_expiry` at a concrete input. -/
theorem penalty_grant_expiry_witness :
    (["certified"] : List String).Nodup
    ∧ (0 : Nat) + TEMP_ROLE_DURATION ≤ 86400000
    ∧ "temp" ∉ (advanceTo (assignTempRole ⟨0, ["certified"], []⟩ "temp")
        86400000).roles :=
  ⟨by decide, by decide,
    (penalty_grant_expiry ⟨0, ["certified"], []⟩ "temp" (by decide)).1
      86400000 (by decide)⟩

/-- Claim C10. A message whose author is a bot account is ignored
entirely: no command is processed, no image is fingerprinted or claimed,
the state is unchanged and no action is emitted. -/
theorem bot_author_ignored (hashOf : String → Option String)
    (ccRole : Option String) (now : Nat) (st : BotState) (m : Msg)
    (hbot : m.authorIsBot = true) :
    messageCreateIndexA hashOf ccRole now st m = (st, []) := by
  simp [messageCreateIndexA, hbot]

/-- Witness for `bot_author_ignored` at a concrete input. -/
theorem bot_author_ignored_witness :
    (⟨true, true, "g", "ch", "m1", "!setup 1 2",
        [⟨some "image/png", "u1"⟩], [], ["cc"]⟩ : Msg).authorIsBot = true
    ∧ messageCreateIndexA (fun _ => some "h16") (some "cc") 3
        ⟨true, [⟨"g", "ch", "cmd"⟩], []⟩
        ⟨true, true, "g", "ch", "m1", "!setup 1 2",
          [⟨some "image/png", "u1"⟩], [], ["cc"]⟩
      = (⟨true, [⟨"g", "ch", "cmd"⟩], []⟩, []) :=
  ⟨rfl,
    bot_author_ignored (fun _ => some "h16") (some "cc") 3
      ⟨true, [⟨"g", "ch", "cmd"⟩], []⟩
      ⟨true, true, "g", "ch", "m1", "!setup 1 2",
        [⟨some "image/png", "u1"⟩], [], ["cc"]⟩ rfl⟩

end ZyfeBot
